import Mathlib

/-!
# ShortsGen render pipeline — formal model

A shallow embedding, over exact rational arithmetic, of the core render
pipeline of the ShortsGen repository:

* the word-timing estimator `generateWordTimings` (utils/subtitleSync);
* the export loop `exportVideo` (utils/videoExporter): per-scene audio
  resampling with its catch-and-fall-back, video frame generation with
  timestamps and keyframe flags, one audio chunk per scene, and the
  per-frame progress callback values;
* the transition transform computed by `drawImage`;
* the greedy subtitle line-breaking step of `drawSubtitle`.

JavaScript numbers are modelled as `ℚ` (the computations involved are
exact-rational: additions, multiplications, divisions, `Math.ceil`,
`Math.min`, integer powers), strings as `List Char` where character-level
structure matters and as `String` where only equality matters.
-/

/-! ## Word-timing estimator (utils/subtitleSync.ts, generateWordTimings) -/

/-- Model of `{ word, startTime, endTime }` of types.ts (times in seconds). -/
structure WordTiming where
  word : List Char
  startTime : ℚ
  endTime : ℚ
deriving Repr, DecidableEq

/-- JS `String.prototype.trim` on the character list: strip whitespace from
both ends. -/
def trimChars (cs : List Char) : List Char :=
  ((cs.dropWhile Char.isWhitespace).reverse.dropWhile Char.isWhitespace).reverse

/-- JS `text.trim().split(/\s+/)`: on a trimmed non-empty string this yields
the maximal non-whitespace runs in order; on the empty string, JS `split`
returns `[""]` (a single empty word). -/
def jsTrimSplit (cs : List Char) : List (List Char) :=
  let t := trimChars cs
  if t.isEmpty then [[]]
  else (t.splitOnP (fun c => c.isWhitespace)).filter (fun w => ¬ w.isEmpty)

/-- The per-word weight of `generateWordTimings`:
base = character length; `+2` if the word contains a digit (`/\d/`);
`+6` if it ends in `.`/`!`/`?`, else `+3` if it ends in `,`/`:`/`;`;
floored at 1 (`Math.max(1, weight)`). -/
def wordWeight (w : List Char) : ℕ :=
  let base := w.length + (if w.any (fun c => c.isDigit) then 2 else 0)
  let base :=
    if w.getLast? = some '.' ∨ w.getLast? = some '!' ∨ w.getLast? = some '?' then
      base + 6
    else if w.getLast? = some ',' ∨ w.getLast? = some ':' ∨ w.getLast? = some ';' then
      base + 3
    else base
  max 1 base

/-- The sum of the word weights (`weights.reduce((a, b) => a + b, 0)`). -/
def totalWeight (words : List (List Char)) : ℕ :=
  (words.map wordWeight).sum

/-- The `words.forEach` accumulation: each word gets the contiguous span
`[t, t + weight * durationPerWeight)` starting where the previous ended. -/
def assignSpans : List (List Char) → ℚ → ℚ → List WordTiming
  | [], _, _ => []
  | w :: ws, dpw, t =>
    ⟨w, t, t + (wordWeight w : ℚ) * dpw⟩ ::
      assignSpans ws dpw (t + (wordWeight w : ℚ) * dpw)

/-- Core of `generateWordTimings` on an already-split word list: distribute
`duration` over the words proportionally to their weights. -/
def generateWordTimingsW (words : List (List Char)) (duration : ℚ) : List WordTiming :=
  assignSpans words (duration / (totalWeight words : ℚ)) 0

/-- Model of `generateWordTimings(text, duration)` of utils/subtitleSync.ts. -/
def generateWordTimings (text : List Char) (duration : ℚ) : List WordTiming :=
  generateWordTimingsW (jsTrimSplit text) duration

/-- Duration of the span assigned to word `i` (0 when out of range). -/
def spanAt (ts : List WordTiming) (i : ℕ) : ℚ :=
  match ts[i]? with
  | some t => t.endTime - t.startTime
  | none => 0

/-! ## Export pipeline (utils/videoExporter.ts, exportVideo) -/

/-- The fields of a Web Audio `AudioBuffer` the export loop reads:
`sampleRate` and frame count (`length`); `duration = length / sampleRate`. -/
structure AudioBuffer where
  sampleRate : ℕ
  length : ℕ
deriving Repr, DecidableEq

/-- JS `audioBuffer.duration` (seconds). -/
def AudioBuffer.duration (b : AudioBuffer) : ℚ :=
  (b.length : ℚ) / (b.sampleRate : ℚ)

/-- Model of `resampleTo48k`: identity at 48 kHz; otherwise an offline render into a
buffer of `Math.ceil(duration * 48000)` frames at 48000 Hz. -/
def resampleTo48k (b : AudioBuffer) : AudioBuffer :=
  if b.sampleRate = 48000 then b
  else { sampleRate := 48000, length := (⌈b.duration * 48000⌉).toNat }

/-- The slice of a `GeneratedScene` the export loop reads: the (possibly
null) audio asset, plus an environment flag recording whether the offline
audio render of `resampleTo48k` throws for this scene (the `catch` branch
of the export loop). -/
structure Scene where
  audioBuffer : Option AudioBuffer
  resampleFails : Bool
deriving Repr, DecidableEq

/-- The buffer the scene is encoded with: on resample failure the `catch`
falls back to the original buffer, otherwise the resampled one. -/
def effBuf (s : Scene) (b : AudioBuffer) : AudioBuffer :=
  if s.resampleFails then b else resampleTo48k b

/-- The scene's effective (post-try/catch) duration in seconds. -/
def effDur (s : Scene) : ℚ :=
  match s.audioBuffer with
  | some b => (effBuf s b).duration
  | none => 0

/-- The scene's original (pre-resample) duration, as summed up front into
`totalDurationSec` for the progress bar. -/
def origDur (s : Scene) : ℚ :=
  match s.audioBuffer with
  | some b => b.duration
  | none => 0

/-- Model of `totalDurationSec`: sum of the original durations of the scenes with a
non-null audio buffer. -/
def totalDurationSec (scenes : List Scene) : ℚ :=
  (scenes.map origDur).sum

/-- The video frames of one scene: `Math.ceil(durationSec * FPS)` frames,
frame `f` timestamped `g + f * (1_000_000 / FPS)` microseconds and flagged
as a keyframe when `f % 60 === 0`. `FPS = 30`. -/
def sceneFrames (g D : ℚ) : List (ℚ × Bool) :=
  (List.range (⌈D * 30⌉).toNat).map
    (fun f : ℕ => (g + (f : ℚ) * ((1000000 : ℚ) / 30), f % 60 == 0))

/-- The per-frame progress-callback values of one scene:
`(g + sceneTime * 1e6) / (total * 1e6) * 100` with
`sceneTime = (f / frames) * durationSec`. -/
def sceneProgress (g total D : ℚ) (frames : ℕ) : List ℚ :=
  (List.range frames).map
    (fun f : ℕ =>
      (g + ((f : ℚ) / (frames : ℚ) * D) * 1000000) / (total * 1000000) * 100)

/-- Everything the export loop emits: video frames (timestamp µs, keyframe
flag) in submission order, audio-chunk timestamps (µs, one per encoded
scene), progress-callback values in call order, and the final
`globalTimestamp` (µs). -/
structure ExportOutput where
  videoFrames : List (ℚ × Bool)
  audioChunks : List ℚ
  progressCalls : List ℚ
  finalTimestamp : ℚ
deriving Repr, DecidableEq

/-- The scene loop of `exportVideo`, entered with `globalTimestamp = g`:
skip scenes with a null audio buffer; otherwise resample (falling back to
the original buffer if the offline render fails), encode one audio chunk at
`g`, render the scene's frames and progress calls, and advance
`globalTimestamp` by `durationSec * 1_000_000`. -/
def exportLoop (total : ℚ) : List Scene → ℚ → ExportOutput
  | [], g => ⟨[], [], [], g⟩
  | s :: rest, g =>
    match s.audioBuffer with
    | none => exportLoop total rest g
    | some b0 =>
      let D := (effBuf s b0).duration
      let tail := exportLoop total rest (g + D * 1000000)
      { videoFrames := sceneFrames g D ++ tail.videoFrames
        audioChunks := g :: tail.audioChunks
        progressCalls := sceneProgress g total D ((⌈D * 30⌉).toNat) ++ tail.progressCalls
        finalTimestamp := tail.finalTimestamp }

/-- Model of `exportVideo(scenes, ...)`: run the scene loop from timestamp 0 against
the up-front total duration. -/
def exportVideo (scenes : List Scene) : ExportOutput :=
  exportLoop (totalDurationSec scenes) scenes 0

/-! ## Transition transform (utils/videoExporter.ts, drawImage) -/

/-- The three transform quantities `drawImage` computes before painting:
`scale`, `opacity` (`globalAlpha`), and `translateX`. All default to the
identity values `1, 1, 0`. -/
structure DrawParams where
  scale : ℚ
  opacity : ℚ
  translateX : ℚ
deriving Repr, DecidableEq

/-- The transform-parameter computation of `drawImage`: with
`easedProgress = Math.min(progress * 2, 1)`,
`zoom` sets `scale = 1 + progress * 0.15`;
`slide` sets `translateX = (1 - t) * CANVAS_WIDTH` for the ease-out cubic
`t = 1 - (1 - easedProgress)^3`; `fade` sets `opacity = easedProgress`;
anything else leaves the identity values. The transition is carried as the
runtime string `drawImage` compares against. `CANVAS_WIDTH = 1080`. -/
def drawImageParams (transition : String) (progress : ℚ) : DrawParams :=
  let easedProgress := min (progress * 2) 1
  if transition = "zoom" then
    { scale := 1 + progress * (15 / 100), opacity := 1, translateX := 0 }
  else if transition = "slide" then
    { scale := 1, opacity := 1,
      translateX := (1 - (1 - (1 - easedProgress) ^ 3)) * 1080 }
  else if transition = "fade" then
    { scale := 1, opacity := easedProgress, translateX := 0 }
  else
    { scale := 1, opacity := 1, translateX := 0 }

/-- The x-coordinate map of the canvas transform stack
`translate(W/2, H/2); scale(s, s); translate(-W/2, -H/2); translate(tx, 0)`:
a drawing coordinate `x` lands at `540 + s * (x + tx - 540)`
(`CANVAS_WIDTH / 2 = 540`). -/
def drawMapX (transition : String) (progress : ℚ) (x : ℚ) : ℚ :=
  let P := drawImageParams transition progress
  540 + P.scale * (x + P.translateX - 540)

/-! ## Subtitle line breaking (utils/videoExporter.ts, drawSubtitle) -/

/-- One step of the `timings.forEach` line accumulator of `drawSubtitle`:
measure `word + " "`; if it no longer fits, close the current line (even if
empty) and start a new one with this word; otherwise append to the current
line. State: `(closed lines, current line, current line width)`. The text
measurer `wf` is the environment's `ctx.measureText(..).width`. -/
def breakStep (wf : List Char → ℚ) (maxWidth : ℚ)
    (acc : List (List WordTiming) × List WordTiming × ℚ) (t : WordTiming) :
    List (List WordTiming) × List WordTiming × ℚ :=
  let wordWidth := wf (t.word ++ [' '])
  if acc.2.2 + wordWidth > maxWidth then
    (acc.1 ++ [acc.2.1], [t], wordWidth)
  else
    (acc.1, acc.2.1 ++ [t], acc.2.2 + wordWidth)

/-- The full line-breaking pass of `drawSubtitle` (step 1): fold the words
through `breakStep` from the empty state, then close the trailing line if
it is non-empty. -/
def breakLines (wf : List Char → ℚ) (maxWidth : ℚ)
    (timings : List WordTiming) : List (List WordTiming) :=
  let acc := timings.foldl (breakStep wf maxWidth) ([], [], 0)
  if acc.2.1.isEmpty then acc.1 else acc.1 ++ [acc.2.1]

/-! ## General list lemmas -/

lemma mem_of_head?_eq {α : Type} {l : List α} {a : α} (h : l.head? = some a) :
    a ∈ l := by
  cases l <;> simp_all

lemma mem_of_getLast?_eq {α : Type} {l : List α} {a : α} (h : l.getLast? = some a) :
    a ∈ l := by
  induction l with
  | nil => simp at h
  | cons x l ih =>
    cases l with
    | nil => simp at h; simp [h]
    | cons y l =>
      rw [List.getLast?_cons_cons] at h
      exact List.mem_cons_of_mem x (ih h)

lemma chain'_le_append {l₁ l₂ : List ℚ}
    (h₁ : l₁.Chain' (· ≤ ·)) (h₂ : l₂.Chain' (· ≤ ·))
    (h : ∀ x ∈ l₁, ∀ y ∈ l₂, x ≤ y) : (l₁ ++ l₂).Chain' (· ≤ ·) := by
  rw [List.chain'_append]
  exact ⟨h₁, h₂, fun x hx y hy =>
    h x (mem_of_getLast?_eq hx) y (mem_of_head?_eq hy)⟩

lemma chain'_le_map_range {φ : ℕ → ℚ} (h : ∀ i, φ i ≤ φ (i + 1)) (n : ℕ) :
    ((List.range n).map φ).Chain' (· ≤ ·) := by
  rw [List.chain'_map]
  cases n with
  | zero => simp
  | succ m => exact (List.chain'_range_succ _ m).mpr (fun i _ => h i)

lemma chain'_le_of_all_eq {l : List ℚ} {c : ℚ} (h : ∀ p ∈ l, p = c) :
    l.Chain' (· ≤ ·) := by
  induction l with
  | nil => simp
  | cons a l ih =>
    rw [List.chain'_cons']
    refine ⟨fun y hy => ?_, ih (fun p hp => h p (List.mem_cons_of_mem a hp))⟩
    rw [h a (List.mem_cons_self a l), h y (List.mem_cons_of_mem a (mem_of_head?_eq hy))]

/-! ## C10: line breaking is a partition of the input -/

lemma breakStep_foldl_flatten (wf : List Char → ℚ) (m : ℚ) :
    ∀ (ts : List WordTiming) (L : List (List WordTiming)) (C : List WordTiming) (w : ℚ),
      (ts.foldl (breakStep wf m) (L, C, w)).1.flatten ++ (ts.foldl (breakStep wf m) (L, C, w)).2.1
        = L.flatten ++ C ++ ts := by
  intro ts
  induction ts with
  | nil => intro L C w; simp
  | cons t ts ih =>
    intro L C w
    rw [List.foldl_cons]
    by_cases hc : w + wf (t.word ++ [' ']) > m
    · rw [show breakStep wf m (L, C, w) t = (L ++ [C], [t], wf (t.word ++ [' '])) from by
        simp [breakStep, hc]]
      rw [ih]
      simp
    · rw [show breakStep wf m (L, C, w) t = (L, C ++ [t], w + wf (t.word ++ [' '])) from by
        simp [breakStep, hc]]
      rw [ih]
      simp

/-- C10: the greedy line-breaking step of the subtitle compositor
(`drawSubtitle`, step 1) partitions the input: the in-order concatenation
of the produced lines is exactly the input word-timing sequence — no word
dropped, duplicated, split, or reordered — for every text measurer `wf`
and maximum line width. -/
theorem C10_break_lines_partition (wf : List Char → ℚ) (maxWidth : ℚ)
    (timings : List WordTiming) :
    (breakLines wf maxWidth timings).flatten = timings := by
  have h := breakStep_foldl_flatten wf maxWidth timings [] [] 0
  simp at h
  rw [breakLines]
  split
  · rename_i hemp
    rw [List.isEmpty_iff] at hemp
    rw [hemp] at h
    simpa using h
  · simpa using h

/-! ## C6: empty narration text -/

/-- C6 counterexample: on empty text the estimator does NOT return the
empty sequence — JS `"".trim().split(/\s+/)` is `[""]`, so the result is a
single timed word with the empty string spanning the whole duration. -/
theorem C6_counterexample :
    generateWordTimings [] 2 = [⟨[], 0, 2⟩] ∧ generateWordTimings [] 2 ≠ [] := by
  constructor
  · simp [generateWordTimings, generateWordTimingsW, jsTrimSplit, trimChars,
      wordWeight, totalWeight, assignSpans]
  · simp [generateWordTimings, generateWordTimingsW, jsTrimSplit, trimChars,
      wordWeight, totalWeight, assignSpans]

/-- C6 amended: when the narration text is empty (or whitespace-only, so
that its trim is empty), the estimator returns exactly one TimedWord whose
word is the empty string, spanning `[0, duration]`. -/
theorem C6_amended (text : List Char) (duration : ℚ)
    (h : trimChars text = []) :
    generateWordTimings text duration = [⟨[], 0, duration⟩] := by
  rw [generateWordTimings, jsTrimSplit, h]
  simp [generateWordTimingsW, wordWeight, totalWeight, assignSpans]

/-- C6 amended, witness at the empty text and duration 37. -/
theorem C6_amended_witness :
    generateWordTimings [] 37 = [⟨[], 0, 37⟩] :=
  C6_amended [] 37 (by rfl)

/-! ## C1: the tiling invariant of the estimator -/

lemma wordWeight_pos (w : List Char) : 1 ≤ wordWeight w :=
  le_max_left 1 _

lemma totalWeight_pos {words : List (List Char)} (h : words ≠ []) :
    1 ≤ totalWeight words := by
  cases words with
  | nil => exact absurd rfl h
  | cons w ws =>
    calc 1 ≤ wordWeight w := wordWeight_pos w
    _ ≤ wordWeight w + (ws.map wordWeight).sum := Nat.le_add_right _ _
    _ = totalWeight (w :: ws) := by simp [totalWeight]

lemma assignSpans_map_word :
    ∀ (ws : List (List Char)) (dpw t : ℚ),
      (assignSpans ws dpw t).map WordTiming.word = ws := by
  intro ws
  induction ws with
  | nil => intro dpw t; simp [assignSpans]
  | cons w ws ih => intro dpw t; simp [assignSpans, ih]

lemma assignSpans_chain :
    ∀ (ws : List (List Char)) (dpw t : ℚ),
      (assignSpans ws dpw t).Chain' (fun a b => a.endTime = b.startTime) := by
  intro ws
  induction ws with
  | nil => intro dpw t; simp [assignSpans]
  | cons w ws ih =>
    intro dpw t
    rw [assignSpans, List.chain'_cons']
    refine ⟨fun y hy => ?_, ih dpw _⟩
    cases ws with
    | nil => simp [assignSpans] at hy
    | cons w' ws' =>
      rw [assignSpans, List.head?_cons, Option.mem_some_iff] at hy
      rw [← hy]

lemma getLast?_cons_of_ne_nil {α : Type} (a : α) {l : List α} (h : l ≠ []) :
    (a :: l).getLast? = l.getLast? := by
  cases l with
  | nil => exact absurd rfl h
  | cons b l => rw [List.getLast?_cons_cons]

lemma assignSpans_getLast?_end :
    ∀ (ws : List (List Char)) (dpw t : ℚ), ws ≠ [] →
      ((assignSpans ws dpw t).getLast?).map WordTiming.endTime
        = some (t + ((ws.map wordWeight).sum : ℚ) * dpw) := by
  intro ws
  induction ws with
  | nil => intro dpw t h; exact absurd rfl h
  | cons w ws ih =>
    intro dpw t _
    cases ws with
    | nil => simp [assignSpans]
    | cons w' ws' =>
      rw [assignSpans, getLast?_cons_of_ne_nil _ (by rw [assignSpans]; simp)]
      rw [ih dpw _ (by simp)]
      congr 1
      push_cast [List.map_cons, List.sum_cons]
      ring

/-- C1: for every non-empty word list and positive total duration, the
estimator returns one TimedWord per word in order, the first starting at 0,
each word's `endTime` equal to the next word's `startTime`, and the last
word's `endTime` exactly equal to the input duration (exact in ℚ). -/
theorem C1_tiling (words : List (List Char)) (duration : ℚ)
    (hw : words ≠ []) (hd : 0 < duration) :
    (generateWordTimingsW words duration).map WordTiming.word = words ∧
    ((generateWordTimingsW words duration).head?).map WordTiming.startTime = some 0 ∧
    (generateWordTimingsW words duration).Chain' (fun a b => a.endTime = b.startTime) ∧
    ((generateWordTimingsW words duration).getLast?).map WordTiming.endTime
      = some duration := by
  have hS : ((totalWeight words : ℚ)) ≠ 0 := by
    have := totalWeight_pos hw
    positivity
  refine ⟨assignSpans_map_word _ _ _, ?_, assignSpans_chain _ _ _, ?_⟩
  · cases words with
    | nil => exact absurd rfl hw
    | cons w ws => simp [generateWordTimingsW, assignSpans]
  · rw [generateWordTimingsW, assignSpans_getLast?_end words _ 0 hw]
    congr 1
    rw [zero_add, show ((words.map wordWeight).sum : ℚ) = (totalWeight words : ℚ) from by
      simp [totalWeight]]
    rw [mul_comm, div_mul_cancel₀ _ hS]

/-- C1, witness at the two-word list `["hi", "yo."]` and duration 2. -/
theorem C1_tiling_witness :
    (generateWordTimingsW [['h','i'], ['y','o','.']] 2).map WordTiming.word
        = [['h','i'], ['y','o','.']] ∧
    ((generateWordTimingsW [['h','i'], ['y','o','.']] 2).head?).map WordTiming.startTime
        = some 0 ∧
    (generateWordTimingsW [['h','i'], ['y','o','.']] 2).Chain'
        (fun a b => a.endTime = b.startTime) ∧
    ((generateWordTimingsW [['h','i'], ['y','o','.']] 2).getLast?).map WordTiming.endTime
        = some 2 :=
  C1_tiling [['h','i'], ['y','o','.']] 2 (by simp) (by norm_num)

/-! ## C9: sentence-terminal punctuation weight bonus -/

lemma wordWeight_end_dot {w : List Char} (h : w.getLast? = some '.') :
    wordWeight w = w.length + (if w.any (fun c => c.isDigit) then 2 else 0) + 6 := by
  rw [wordWeight]
  simp only [h]
  norm_num

lemma wordWeight_no_trailing_punct {w : List Char} (hw : w ≠ [])
    (h : ∀ c, w.getLast? = some c →
      c ≠ '.' ∧ c ≠ '!' ∧ c ≠ '?' ∧ c ≠ ',' ∧ c ≠ ':' ∧ c ≠ ';') :
    wordWeight w = w.length + (if w.any (fun c => c.isDigit) then 2 else 0) := by
  cases hc : w.getLast? with
  | none => rw [List.getLast?_eq_none_iff] at hc; exact absurd hc hw
  | some c =>
    obtain ⟨h1, h2, h3, h4, h5, h6⟩ := h c hc
    have hlen : 1 ≤ w.length := List.length_pos.mpr hw
    rw [wordWeight]
    simp only [hc, Option.some.injEq]
    rw [if_neg (by tauto), if_neg (by tauto)]
    omega

lemma spanAt_cons_zero (x : WordTiming) (l : List WordTiming) :
    spanAt (x :: l) 0 = x.endTime - x.startTime := by
  simp [spanAt]

lemma spanAt_cons_succ (x : WordTiming) (l : List WordTiming) (n : ℕ) :
    spanAt (x :: l) (n + 1) = spanAt l n := by
  simp [spanAt]

lemma spanAt_assignSpans_middle :
    ∀ (pre : List (List Char)) (w : List Char) (post : List (List Char)) (dpw t : ℚ),
      spanAt (assignSpans (pre ++ w :: post) dpw t) pre.length
        = (wordWeight w : ℚ) * dpw := by
  intro pre
  induction pre with
  | nil =>
    intro w post dpw t
    rw [List.nil_append, assignSpans, List.length_nil, spanAt_cons_zero]
    ring
  | cons a pre ih =>
    intro w post dpw t
    rw [List.cons_append, assignSpans, List.length_cons, spanAt_cons_succ]
    exact ih w post dpw _

lemma totalWeight_append_middle (pre : List (List Char)) (w : List Char)
    (post : List (List Char)) :
    totalWeight (pre ++ w :: post)
      = (totalWeight pre + totalWeight post) + wordWeight w := by
  simp [totalWeight]
  omega

/-- C9 counterexample: with a one-word list ("the rest of the word list"
empty) the claim's strict inequality fails — `"hi."` and `"hix"` have equal
length, the first ends in `.`, the second has no trailing punctuation, yet
for total duration 1 both words are assigned the whole `[0, 1]` span, so
the punctuated word's span is NOT strictly longer. -/
theorem C9_counterexample :
    (['h','i','.'].length = ['h','i','x'].length) ∧
    ['h','i','.'].getLast? = some '.' ∧
    ['h','i','x'].getLast? = some 'x' ∧
    spanAt (generateWordTimingsW [['h','i','.']] 1) 0
      = spanAt (generateWordTimingsW [['h','i','x']] 1) 0 ∧
    ¬ (spanAt (generateWordTimingsW [['h','i','.']] 1) 0
        > spanAt (generateWordTimingsW [['h','i','x']] 1) 0) := by
  refine ⟨by decide, by decide, by decide, ?_, ?_⟩
  · simp [generateWordTimingsW, spanAt, wordWeight, totalWeight, assignSpans]
  · simp [generateWordTimingsW, spanAt, wordWeight, totalWeight, assignSpans]

/-- C9 amended: the weight bonus and strict span monotonicity hold as the
claim states them provided the word is not alone in the list (some other
word contributes positive weight) and the two compared words agree on the
digit bonus: then the `.`-terminated word's weight exceeds the
unpunctuated same-length word's weight by exactly 6, and its assigned span
is strictly longer (same total duration, same remaining words). With an
otherwise empty word list both spans equal the whole duration instead. -/
theorem C9_amended (pre post : List (List Char)) (w1 w2 : List Char) (d : ℚ)
    (hd : 0 < d) (hne : pre ++ post ≠ [])
    (hlen : w1.length = w2.length)
    (h1 : w1.getLast? = some '.')
    (h2 : ∀ c, w2.getLast? = some c →
      c ≠ '.' ∧ c ≠ '!' ∧ c ≠ '?' ∧ c ≠ ',' ∧ c ≠ ':' ∧ c ≠ ';')
    (hdig : w1.any (fun c => c.isDigit) = w2.any (fun c => c.isDigit)) :
    wordWeight w1 = wordWeight w2 + 6 ∧
    spanAt (generateWordTimingsW (pre ++ w1 :: post) d) pre.length
      > spanAt (generateWordTimingsW (pre ++ w2 :: post) d) pre.length := by
  have hw1ne : w1 ≠ [] := by
    intro h
    rw [h] at h1
    simp at h1
  have hw2ne : w2 ≠ [] := by
    intro h
    rw [h] at hlen
    simp at hlen
    exact hw1ne hlen
  have hW : wordWeight w1 = wordWeight w2 + 6 := by
    rw [wordWeight_end_dot h1, wordWeight_no_trailing_punct hw2ne h2, hlen, hdig]
  refine ⟨hW, ?_⟩
  rw [generateWordTimingsW, generateWordTimingsW,
    spanAt_assignSpans_middle, spanAt_assignSpans_middle,
    totalWeight_append_middle, totalWeight_append_middle]
  have hA : 1 ≤ totalWeight pre + totalWeight post := by
    have hnn : ¬ (pre = [] ∧ post = []) := by
      rintro ⟨hp, hq⟩
      exact hne (by rw [hp, hq]; rfl)
    rcases not_and_or.mp hnn with h | h
    · calc 1 ≤ totalWeight pre := totalWeight_pos h
      _ ≤ _ := Nat.le_add_right _ _
    · calc 1 ≤ totalWeight post := totalWeight_pos h
      _ ≤ _ := Nat.le_add_left _ _
  set A := totalWeight pre + totalWeight post with hAdef
  set W2 := wordWeight w2 with hW2def
  have hW2 : 1 ≤ W2 := wordWeight_pos w2
  rw [hW]
  have hAq : (1 : ℚ) ≤ (A : ℚ) := by exact_mod_cast hA
  have hW2q : (1 : ℚ) ≤ (W2 : ℚ) := by exact_mod_cast hW2
  have hden2 : (0 : ℚ) < (A + W2 : ℕ) := by
    push_cast
    linarith
  have hden1 : (0 : ℚ) < (A + (W2 + 6) : ℕ) := by
    push_cast
    linarith
  rw [gt_iff_lt, mul_div_assoc' _ d _, mul_div_assoc' _ d _,
    div_lt_div_iff₀ hden2 hden1]
  push_cast
  nlinarith [mul_pos hd (show (0:ℚ) < (A:ℚ) from by linarith)]

/-- C9 amended, witness: rest `["a"]`, words `"hi."` vs `"hix"`,
duration 1. -/
theorem C9_amended_witness :
    wordWeight ['h','i','.'] = wordWeight ['h','i','x'] + 6 ∧
    spanAt (generateWordTimingsW ([['a']] ++ ['h','i','.'] :: []) 1) [['a']].length
      > spanAt (generateWordTimingsW ([['a']] ++ ['h','i','x'] :: []) 1) [['a']].length :=
  C9_amended [['a']] [] ['h','i','.'] ['h','i','x'] 1 (by norm_num) (by simp)
    (by decide) (by decide) (by decide) (by decide)

/-! ## C8: transition transforms of drawImage -/

/-- C8: for progress `p ∈ [0,1]`, `drawImage` computes: for `zoom` a
uniform scale `1 + p*0.15` about the canvas center (translateX 0, full
opacity); for `slide` a pure horizontal translation by `(1 - t) * 1080`
where `t = 1 - (1 - min(p*2,1))^3`, which is 0 from `p = 1/2` on (the
slide completes in the first half and then holds); for `fade` the identity
transform with opacity `min(p*2,1)` (0 at `p = 0`, 1 from `p = 1/2` on);
and for `"none"` or any unrecognized kind the identity transform at full
opacity. -/
theorem C8_transition_transform (p : ℚ) (h0 : 0 ≤ p) (h1 : p ≤ 1) :
    (drawImageParams "zoom" p = ⟨1 + p * (15 / 100), 1, 0⟩ ∧
      ∀ x, drawMapX "zoom" p x = 540 + (1 + p * (15 / 100)) * (x - 540)) ∧
    (drawImageParams "slide" p
        = ⟨1, 1, (1 - (1 - (1 - min (p * 2) 1) ^ 3)) * 1080⟩ ∧
      (∀ x, drawMapX "slide" p x = x + (1 - (1 - (1 - min (p * 2) 1) ^ 3)) * 1080) ∧
      (1 / 2 ≤ p → drawImageParams "slide" p = ⟨1, 1, 0⟩)) ∧
    (drawImageParams "fade" p = ⟨1, min (p * 2) 1, 0⟩ ∧
      (∀ x, drawMapX "fade" p x = x) ∧
      drawImageParams "fade" 0 = ⟨1, 0, 0⟩ ∧
      (1 / 2 ≤ p → drawImageParams "fade" p = ⟨1, 1, 0⟩)) ∧
    (∀ s : String, s ≠ "zoom" → s ≠ "slide" → s ≠ "fade" →
      drawImageParams s p = ⟨1, 1, 0⟩ ∧ ∀ x, drawMapX s p x = x) := by
  refine ⟨⟨?_, ?_⟩, ⟨?_, ?_, ?_⟩, ⟨?_, ?_, ?_, ?_⟩, ?_⟩
  · simp [drawImageParams]
  · intro x
    simp [drawMapX, drawImageParams]
  · simp [drawImageParams]
  · intro x
    simp [drawMapX, drawImageParams]
  · intro hp
    have : min (p * 2) 1 = 1 := min_eq_right (by linarith)
    simp [drawImageParams, this]
  · simp [drawImageParams]
  · intro x
    simp [drawMapX, drawImageParams]
  · simp [drawImageParams]
  · intro hp
    have : min (p * 2) 1 = 1 := min_eq_right (by linarith)
    simp [drawImageParams, this]
  · intro s hs1 hs2 hs3
    constructor
    · simp [drawImageParams, hs1, hs2, hs3]
    · intro x
      simp [drawMapX, drawImageParams, hs1, hs2, hs3]

/-- C8, witness at `p = 3/4`. -/
theorem C8_transition_transform_witness :
    (drawImageParams "zoom" (3/4) = ⟨1 + (3/4 : ℚ) * (15 / 100), 1, 0⟩ ∧
      ∀ x, drawMapX "zoom" (3/4) x = 540 + (1 + (3/4 : ℚ) * (15 / 100)) * (x - 540)) ∧
    (drawImageParams "slide" (3/4)
        = ⟨1, 1, (1 - (1 - (1 - min ((3/4 : ℚ) * 2) 1) ^ 3)) * 1080⟩ ∧
      (∀ x, drawMapX "slide" (3/4) x
          = x + (1 - (1 - (1 - min ((3/4 : ℚ) * 2) 1) ^ 3)) * 1080) ∧
      (1 / 2 ≤ (3/4 : ℚ) → drawImageParams "slide" (3/4) = ⟨1, 1, 0⟩)) ∧
    (drawImageParams "fade" (3/4) = ⟨1, min ((3/4 : ℚ) * 2) 1, 0⟩ ∧
      (∀ x, drawMapX "fade" (3/4) x = x) ∧
      drawImageParams "fade" 0 = ⟨1, 0, 0⟩ ∧
      (1 / 2 ≤ (3/4 : ℚ) → drawImageParams "fade" (3/4) = ⟨1, 1, 0⟩)) ∧
    (∀ s : String, s ≠ "zoom" → s ≠ "slide" → s ≠ "fade" →
      drawImageParams s (3/4) = ⟨1, 1, 0⟩ ∧ ∀ x, drawMapX s (3/4) x = x) :=
  C8_transition_transform (3/4) (by norm_num) (by norm_num)

/-! ## Export pipeline lemmas -/

lemma AudioBuffer.duration_nonneg (b : AudioBuffer) : 0 ≤ b.duration :=
  div_nonneg (Nat.cast_nonneg _) (Nat.cast_nonneg _)

lemma effDur_nonneg (s : Scene) : 0 ≤ effDur s := by
  rw [effDur]
  cases s.audioBuffer with
  | none => exact le_refl 0
  | some b => exact (effBuf s b).duration_nonneg

lemma origDur_nonneg (s : Scene) : 0 ≤ origDur s := by
  rw [origDur]
  cases s.audioBuffer with
  | none => exact le_refl 0
  | some b => exact b.duration_nonneg

lemma origDur_sum_nonneg (scenes : List Scene) :
    0 ≤ (scenes.map origDur).sum :=
  List.sum_nonneg (by
    intro x hx
    obtain ⟨s, _, rfl⟩ := List.mem_map.mp hx
    exact origDur_nonneg s)

lemma effBuf_48k {s : Scene} {b : AudioBuffer} (h : b.sampleRate = 48000) :
    effBuf s b = b := by
  rw [effBuf, resampleTo48k, if_pos h]
  split <;> rfl

/-- A frame index `f < ⌈D*30⌉.toNat` puts the frame's offset strictly below the scene's
duration in microseconds. -/
lemma frame_ts_lt {D : ℚ} (hD : 0 ≤ D) {f : ℕ} (hf : f < (⌈D * 30⌉).toNat) :
    (f : ℚ) * ((1000000 : ℚ) / 30) < D * 1000000 := by
  have h1 : (f : ℤ) < ⌈D * 30⌉ := by
    rwa [← Int.lt_toNat]
  have h2 : ((f : ℚ)) + 1 ≤ ((⌈D * 30⌉ : ℤ) : ℚ) := by
    exact_mod_cast h1
  have h3 : ((⌈D * 30⌉ : ℤ) : ℚ) < D * 30 + 1 := Int.ceil_lt_add_one _
  have h4 : (f : ℚ) < D * 30 := by linarith
  calc (f : ℚ) * ((1000000 : ℚ) / 30)
      < (D * 30) * ((1000000 : ℚ) / 30) :=
        mul_lt_mul_of_pos_right h4 (by norm_num)
    _ = D * 1000000 := by ring

lemma sceneFrames_map_fst (g D : ℚ) :
    (sceneFrames g D).map Prod.fst
      = (List.range (⌈D * 30⌉).toNat).map
          (fun f : ℕ => g + (f : ℚ) * ((1000000 : ℚ) / 30)) := by
  rw [sceneFrames, List.map_map]
  rfl

lemma sceneFrames_fst_mem {g D t : ℚ}
    (ht : t ∈ (sceneFrames g D).map Prod.fst) :
    ∃ f : ℕ, f < (⌈D * 30⌉).toNat ∧ t = g + (f : ℚ) * ((1000000 : ℚ) / 30) := by
  rw [sceneFrames_map_fst] at ht
  obtain ⟨f, hf, rfl⟩ := List.mem_map.mp ht
  exact ⟨f, List.mem_range.mp hf, rfl⟩

lemma sceneFrames_fst_chain (g D : ℚ) :
    ((sceneFrames g D).map Prod.fst).Chain' (· ≤ ·) := by
  rw [sceneFrames_map_fst]
  refine chain'_le_map_range (fun i => ?_) _
  have : ((i : ℚ)) ≤ ((i + 1 : ℕ) : ℚ) := by exact_mod_cast Nat.le_succ i
  nlinarith [this]

/-- The final `globalTimestamp` is the entry value plus the sum of the
scenes' effective durations in microseconds. -/
lemma exportLoop_final (total : ℚ) :
    ∀ (scenes : List Scene) (g : ℚ),
      (exportLoop total scenes g).finalTimestamp
        = g + (scenes.map effDur).sum * 1000000 := by
  intro scenes
  induction scenes with
  | nil => intro g; simp [exportLoop]
  | cons s rest ih =>
    intro g
    cases hb : s.audioBuffer with
    | none =>
      rw [exportLoop]
      simp only [hb]
      rw [ih g]
      simp [effDur, hb]
    | some b =>
      rw [exportLoop]
      simp only [hb]
      rw [ih]
      simp [effDur, hb]
      ring

/-- Invariant of the scene loop: video-frame timestamps and audio-chunk
timestamps are chains under `≤` and all lie at or above the entry
timestamp `g`. -/
lemma exportLoop_mono (total : ℚ) :
    ∀ (scenes : List Scene) (g : ℚ),
      ((exportLoop total scenes g).videoFrames.map Prod.fst).Chain' (· ≤ ·) ∧
      (∀ t ∈ (exportLoop total scenes g).videoFrames.map Prod.fst, g ≤ t) ∧
      ((exportLoop total scenes g).audioChunks.Chain' (· ≤ ·)) ∧
      (∀ t ∈ (exportLoop total scenes g).audioChunks, g ≤ t) := by
  intro scenes
  induction scenes with
  | nil => intro g; simp [exportLoop]
  | cons s rest ih =>
    intro g
    cases hb : s.audioBuffer with
    | none =>
      rw [exportLoop]
      simp only [hb]
      exact ih g
    | some b =>
      rw [exportLoop]
      simp only [hb]
      have hD : 0 ≤ (effBuf s b).duration := (effBuf s b).duration_nonneg
      set D := (effBuf s b).duration with hDdef
      have hg' : g ≤ g + D * 1000000 := by nlinarith
      obtain ⟨ihv, ihvb, iha, ihab⟩ := ih (g + D * 1000000)
      have hup : ∀ t ∈ (sceneFrames g D).map Prod.fst, g ≤ t ∧ t < g + D * 1000000 := by
        intro t ht
        obtain ⟨f, hf, rfl⟩ := sceneFrames_fst_mem ht
        constructor
        · have : (0:ℚ) ≤ (f : ℚ) * ((1000000 : ℚ) / 30) := by positivity
          linarith
        · have := frame_ts_lt hD hf
          linarith
      refine ⟨?_, ?_, ?_, ?_⟩
      · rw [List.map_append]
        refine chain'_le_append (sceneFrames_fst_chain g D) ihv ?_
        intro x hx y hy
        exact le_trans (le_of_lt (hup x hx).2) (ihvb y hy)
      · rw [List.map_append]
        intro t ht
        rcases List.mem_append.mp ht with h | h
        · exact (hup t h).1
        · exact le_trans hg' (ihvb t h)
      · rw [List.chain'_cons']
        exact ⟨fun y hy => le_trans hg' (ihab y (mem_of_head?_eq hy)), iha⟩
      · intro t ht
        rcases List.mem_cons.mp ht with h | h
        · exact le_of_eq h.symm
        · exact le_trans hg' (ihab t h)

/-! ## C2: timestamp bookkeeping of the export -/

/-- The scene's resampled audio duration (what `durationSec` is after a
successful `resampleTo48k`). -/
def resampledDur (s : Scene) : ℚ :=
  match s.audioBuffer with
  | some b => (resampleTo48k b).duration
  | none => 0

lemma effDur_eq_resampledDur {s : Scene} (h : s.resampleFails = false) :
    effDur s = resampledDur s := by
  rw [effDur, resampledDur]
  cases s.audioBuffer with
  | none => rfl
  | some b => simp [effBuf, h]

/-- C2: over scenes that all carry audio and all resample successfully, the
final global timestamp equals the sum of the per-scene resampled durations
times 1,000,000; the same holds at every scene boundary (prefix), so the
timestamp advances scene-over-scene by exactly that scene's resampled
duration in microseconds; and the video frame timestamps and the audio
chunk timestamps submitted to the encoders are non-decreasing across the
whole job. -/
theorem C2_timestamps (scenes : List Scene)
    (hA : ∀ s ∈ scenes, s.audioBuffer ≠ none)
    (hR : ∀ s ∈ scenes, s.resampleFails = false) :
    (exportVideo scenes).finalTimestamp
        = (scenes.map resampledDur).sum * 1000000 ∧
    (∀ i : ℕ,
      (exportLoop (totalDurationSec scenes) (scenes.take i) 0).finalTimestamp
        = ((scenes.take i).map resampledDur).sum * 1000000) ∧
    ((exportVideo scenes).videoFrames.map Prod.fst).Chain' (· ≤ ·) ∧
    (exportVideo scenes).audioChunks.Chain' (· ≤ ·) := by
  have hmap : ∀ (l : List Scene), (∀ s ∈ l, s.resampleFails = false) →
      l.map effDur = l.map resampledDur := by
    intro l hl
    exact List.map_congr_left (fun s hs => effDur_eq_resampledDur (hl s hs))
  refine ⟨?_, ?_, ?_, ?_⟩
  · rw [exportVideo, exportLoop_final, hmap scenes hR, zero_add]
  · intro i
    rw [exportLoop_final, hmap (scenes.take i)
      (fun s hs => hR s (List.take_subset i scenes hs)), zero_add]
  · exact (exportLoop_mono _ scenes 0).1
  · exact (exportLoop_mono _ scenes 0).2.2.1

/-- C2, witness: one 1-second 24 kHz scene (resampled to 48 kHz). -/
theorem C2_timestamps_witness :
    (exportVideo [(⟨some ⟨24000, 24000⟩, false⟩ : Scene)]).finalTimestamp
        = ([(⟨some ⟨24000, 24000⟩, false⟩ : Scene)].map resampledDur).sum * 1000000 ∧
    (∀ i : ℕ,
      (exportLoop (totalDurationSec [(⟨some ⟨24000, 24000⟩, false⟩ : Scene)])
          ([(⟨some ⟨24000, 24000⟩, false⟩ : Scene)].take i) 0).finalTimestamp
        = (([(⟨some ⟨24000, 24000⟩, false⟩ : Scene)].take i).map resampledDur).sum
            * 1000000) ∧
    ((exportVideo [(⟨some ⟨24000, 24000⟩, false⟩ : Scene)]).videoFrames.map
        Prod.fst).Chain' (· ≤ ·) ∧
    (exportVideo [(⟨some ⟨24000, 24000⟩, false⟩ : Scene)]).audioChunks.Chain' (· ≤ ·) :=
  C2_timestamps [(⟨some ⟨24000, 24000⟩, false⟩ : Scene)] (by simp) (by simp)

/-! ## C4: scenes without audio are skipped without trace -/

/-- C4: a scene with a null audio asset contributes nothing — removing it
from the scene list leaves the export output (frames, audio chunks,
progress calls, final timestamp) unchanged, from any entry timestamp; in
particular the next audio-bearing scene starts exactly where the previous
one ended. -/
theorem C4_skip_scene (pre post : List Scene) (s : Scene)
    (hs : s.audioBuffer = none) :
    (∀ total g, exportLoop total (pre ++ s :: post) g
        = exportLoop total (pre ++ post) g) ∧
    exportVideo (pre ++ s :: post) = exportVideo (pre ++ post) := by
  have hloop : ∀ (pre' : List Scene) (total g : ℚ),
      exportLoop total (pre' ++ s :: post) g = exportLoop total (pre' ++ post) g := by
    intro pre'
    induction pre' with
    | nil =>
      intro total g
      rw [List.nil_append, List.nil_append, exportLoop]
      simp only [hs]
    | cons a pre' ih =>
      intro total g
      rw [List.cons_append, List.cons_append, exportLoop, exportLoop]
      cases ha : a.audioBuffer with
      | none => simp only [ha, ih]
      | some b => simp only [ha, ih]
  have htot : totalDurationSec (pre ++ s :: post) = totalDurationSec (pre ++ post) := by
    simp [totalDurationSec, origDur, hs]
  exact ⟨hloop pre, by rw [exportVideo, exportVideo, htot, hloop pre]⟩

/-- C4, witness: an audio-less scene between two audio scenes. -/
theorem C4_skip_scene_witness :
    (∀ total g,
      exportLoop total
          ([(⟨some ⟨48000, 48000⟩, false⟩ : Scene)]
            ++ (⟨none, false⟩ : Scene) :: [(⟨some ⟨48000, 24000⟩, false⟩ : Scene)]) g
        = exportLoop total
          ([(⟨some ⟨48000, 48000⟩, false⟩ : Scene)]
            ++ [(⟨some ⟨48000, 24000⟩, false⟩ : Scene)]) g) ∧
    exportVideo ([(⟨some ⟨48000, 48000⟩, false⟩ : Scene)]
        ++ (⟨none, false⟩ : Scene) :: [(⟨some ⟨48000, 24000⟩, false⟩ : Scene)])
      = exportVideo ([(⟨some ⟨48000, 48000⟩, false⟩ : Scene)]
        ++ [(⟨some ⟨48000, 24000⟩, false⟩ : Scene)]) :=
  C4_skip_scene [(⟨some ⟨48000, 48000⟩, false⟩ : Scene)]
    [(⟨some ⟨48000, 24000⟩, false⟩ : Scene)] (⟨none, false⟩ : Scene) rfl

/-! ## C7: per-scene frame schedule -/

/-- C7: a scene with audio of resampled duration `D` contributes exactly
`⌈D * 30⌉` video frames, rendered before the rest of the job, with frame
`f` timestamped `g + f * (1_000_000 / 30)` microseconds and flagged as a
keyframe precisely when `f` is a multiple of 60. -/
theorem C7_scene_frames (total g : ℚ) (s : Scene) (rest : List Scene)
    (b : AudioBuffer) (hb : s.audioBuffer = some b)
    (hr : s.resampleFails = false) :
    (exportLoop total (s :: rest) g).videoFrames
        = sceneFrames g (resampleTo48k b).duration
          ++ (exportLoop total rest
              (g + (resampleTo48k b).duration * 1000000)).videoFrames ∧
    (sceneFrames g (resampleTo48k b).duration).length
        = (⌈(resampleTo48k b).duration * 30⌉).toNat ∧
    (∀ f : ℕ, f < (⌈(resampleTo48k b).duration * 30⌉).toNat →
      (sceneFrames g (resampleTo48k b).duration)[f]?
        = some (g + (f : ℚ) * ((1000000 : ℚ) / 30), f % 60 == 0)) := by
  refine ⟨?_, ?_, ?_⟩
  · rw [exportLoop]
    simp only [hb]
    rw [show effBuf s b = resampleTo48k b from by rw [effBuf, hr]; simp]
  · rw [sceneFrames]
    simp
  · intro f hf
    rw [sceneFrames]
    simp [List.getElem?_map, List.getElem?_range hf]

/-- C7, witness: a 1-second scene already at 48 kHz (30 frames). -/
theorem C7_scene_frames_witness :
    (exportLoop 1 [(⟨some ⟨48000, 48000⟩, false⟩ : Scene)] 0).videoFrames
        = sceneFrames 0 (resampleTo48k ⟨48000, 48000⟩).duration
          ++ (exportLoop 1 []
              (0 + (resampleTo48k ⟨48000, 48000⟩).duration * 1000000)).videoFrames ∧
    (sceneFrames 0 (resampleTo48k ⟨48000, 48000⟩).duration).length
        = (⌈(resampleTo48k ⟨48000, 48000⟩).duration * 30⌉).toNat ∧
    (∀ f : ℕ, f < (⌈(resampleTo48k ⟨48000, 48000⟩).duration * 30⌉).toNat →
      (sceneFrames 0 (resampleTo48k ⟨48000, 48000⟩).duration)[f]?
        = some (0 + (f : ℚ) * ((1000000 : ℚ) / 30), f % 60 == 0)) :=
  C7_scene_frames 1 0 (⟨some ⟨48000, 48000⟩, false⟩ : Scene) [] ⟨48000, 48000⟩ rfl rfl

/-! ## C3: resample failure is caught, not fatal -/

/-- C3 counterexample: a 1-second 24 kHz scene whose offline resample
throws. The export does NOT fail: the `catch` falls back to the original
un-resampled buffer and the loop continues, emitting all 30 video frames,
the scene's audio chunk at timestamp 0, and a final timestamp of
1,000,000 µs — a completed export, not an error. -/
theorem C3_counterexample :
    (exportVideo [(⟨some ⟨24000, 24000⟩, true⟩ : Scene)]).videoFrames.length = 30 ∧
    (exportVideo [(⟨some ⟨24000, 24000⟩, true⟩ : Scene)]).audioChunks = [0] ∧
    (exportVideo [(⟨some ⟨24000, 24000⟩, true⟩ : Scene)]).finalTimestamp = 1000000 := by
  have hdur : (⟨24000, 24000⟩ : AudioBuffer).duration = 1 := by
    norm_num [AudioBuffer.duration]
  have hfr : (⌈((⟨24000, 24000⟩ : AudioBuffer)).duration * 30⌉).toNat = 30 := by
    rw [hdur]
    rw [show ((1:ℚ) * 30) = 30 by norm_num]
    rw [show ⌈(30 : ℚ)⌉ = 30 by rw [Int.ceil_eq_iff] <;> norm_num]
    rfl
  refine ⟨?_, ?_, ?_⟩
  · simp [exportVideo, exportLoop, effBuf, sceneFrames, hfr]
  · simp [exportVideo, exportLoop, effBuf]
  · simp [exportVideo, exportLoop, effBuf]
    simp only [hdur]

/-- C3 amended: when the resample step fails for a scene, the error is
caught and the export continues with the original un-resampled buffer —
the scene still contributes its audio chunk, its `ceil(duration * 30)`
frames and progress calls computed from the ORIGINAL duration, and
advances the global timestamp by the original duration; no error
propagates. -/
theorem C3_amended (total g : ℚ) (s : Scene) (rest : List Scene)
    (b : AudioBuffer) (hb : s.audioBuffer = some b)
    (hr : s.resampleFails = true) :
    exportLoop total (s :: rest) g =
      { videoFrames := sceneFrames g b.duration
          ++ (exportLoop total rest (g + b.duration * 1000000)).videoFrames,
        audioChunks := g :: (exportLoop total rest (g + b.duration * 1000000)).audioChunks,
        progressCalls := sceneProgress g total b.duration ((⌈b.duration * 30⌉).toNat)
          ++ (exportLoop total rest (g + b.duration * 1000000)).progressCalls,
        finalTimestamp := (exportLoop total rest (g + b.duration * 1000000)).finalTimestamp } := by
  rw [exportLoop]
  simp only [hb]
  rw [show effBuf s b = b from by rw [effBuf, hr]; simp]

/-- C3 amended, witness: the failing scene of the counterexample followed
by one more scene. -/
theorem C3_amended_witness :
    exportLoop 2 [(⟨some ⟨24000, 24000⟩, true⟩ : Scene),
        (⟨some ⟨48000, 48000⟩, false⟩ : Scene)] 0 =
      { videoFrames := sceneFrames 0 (⟨24000, 24000⟩ : AudioBuffer).duration
          ++ (exportLoop 2 [(⟨some ⟨48000, 48000⟩, false⟩ : Scene)]
              (0 + (⟨24000, 24000⟩ : AudioBuffer).duration * 1000000)).videoFrames,
        audioChunks := 0 :: (exportLoop 2 [(⟨some ⟨48000, 48000⟩, false⟩ : Scene)]
              (0 + (⟨24000, 24000⟩ : AudioBuffer).duration * 1000000)).audioChunks,
        progressCalls := sceneProgress 0 2 (⟨24000, 24000⟩ : AudioBuffer).duration
            ((⌈(⟨24000, 24000⟩ : AudioBuffer).duration * 30⌉).toNat)
          ++ (exportLoop 2 [(⟨some ⟨48000, 48000⟩, false⟩ : Scene)]
              (0 + (⟨24000, 24000⟩ : AudioBuffer).duration * 1000000)).progressCalls,
        finalTimestamp := (exportLoop 2 [(⟨some ⟨48000, 48000⟩, false⟩ : Scene)]
              (0 + (⟨24000, 24000⟩ : AudioBuffer).duration * 1000000)).finalTimestamp } :=
  C3_amended 2 0 (⟨some ⟨24000, 24000⟩, true⟩ : Scene)
    [(⟨some ⟨48000, 48000⟩, false⟩ : Scene)] ⟨24000, 24000⟩ rfl rfl

/-! ## C5: progress-callback values -/

/-- C5 counterexample. (a) One scene of 1600 audio frames at 48 kHz
(duration 1/30 s, a single video frame): the only — hence final — progress
call reports 0, not 100. (b) Five scenes of one audio frame at 32 kHz:
resampling rounds each duration up from 1/32000 s to 1/24000 s while the
progress denominator was fixed from the pre-resample durations, so the
final progress call reports 320/3 ≈ 106.7 — outside [0,100] and again not
100. -/
theorem C5_counterexample :
    ((exportVideo [(⟨some ⟨48000, 1600⟩, false⟩ : Scene)]).progressCalls = [0] ∧
      (0 : ℚ) ≠ 100) ∧
    ((exportVideo (List.replicate 5 (⟨some ⟨32000, 1⟩, false⟩ : Scene))).progressCalls.getLast?
        = some (320/3) ∧
      (100 : ℚ) < 320/3 ∧ (320/3 : ℚ) ≠ 100) := by
  have hfr1 : (⌈((⟨48000, 1600⟩ : AudioBuffer)).duration * 30⌉).toNat = 1 := by
    rw [show (⟨48000, 1600⟩ : AudioBuffer).duration = 1/30 from by
      norm_num [AudioBuffer.duration]]
    rw [show ((1:ℚ)/30 * 30) = 1 by norm_num]
    rw [show ⌈(1 : ℚ)⌉ = 1 by rw [Int.ceil_eq_iff] <;> norm_num]
    rfl
  have hdur2 : (resampleTo48k ⟨32000, 1⟩).duration = 1/24000 := by
    rw [resampleTo48k, if_neg (by norm_num)]
    norm_num [AudioBuffer.duration]
    rw [show ⌈(3/2 : ℚ)⌉ = 2 by rw [Int.ceil_eq_iff] <;> norm_num]
    norm_num [show Int.toNat 2 = 2 from rfl]
  have hfr5 : (⌈(resampleTo48k ⟨32000, 1⟩).duration * 30⌉).toNat = 1 := by
    rw [hdur2]
    rw [show ((1:ℚ)/24000 * 30) = 1/800 by norm_num]
    rw [show ⌈(1/800 : ℚ)⌉ = 1 by rw [Int.ceil_eq_iff] <;> norm_num]
    rfl
  refine ⟨⟨?_, by norm_num⟩, ?_, by norm_num, by norm_num⟩
  · simp [exportVideo, exportLoop, totalDurationSec, origDur, effBuf, resampleTo48k,
      hfr1, sceneProgress, List.range_succ]
  · simp [exportVideo, exportLoop, totalDurationSec, origDur, effBuf, hfr5,
      sceneProgress, List.range_succ]
    simp only [hdur2]
    norm_num [AudioBuffer.duration]

/-- With a zero total duration every progress value is 0 (JS would emit
NaN/Infinity; in the ℚ model division by zero is 0 — either way the case
is vacuous for the bounds since such an export emits no frames). -/
lemma exportLoop_progress_total_zero :
    ∀ (scenes : List Scene) (g : ℚ),
      ∀ p ∈ (exportLoop 0 scenes g).progressCalls, p = 0 := by
  intro scenes
  induction scenes with
  | nil => intro g p hp; simp [exportLoop] at hp
  | cons s rest ih =>
    intro g p hp
    cases hb : s.audioBuffer with
    | none =>
      rw [exportLoop] at hp
      simp only [hb] at hp
      exact ih g p hp
    | some b =>
      rw [exportLoop] at hp
      simp only [hb] at hp
      rcases List.mem_append.mp hp with h | h
      · rw [sceneProgress] at h
        obtain ⟨f, _, rfl⟩ := List.mem_map.mp h
        simp
      · exact ih _ p h

/-- With a positive total duration the progress values are a chain under
`≤`, and each is at least the entry timestamp's share `g/(total*1e6)*100`
(hence non-negative). -/
lemma exportLoop_progress_mono (total : ℚ) (htot : 0 < total) :
    ∀ (scenes : List Scene) (g : ℚ), 0 ≤ g →
      ((exportLoop total scenes g).progressCalls.Chain' (· ≤ ·)) ∧
      (∀ p ∈ (exportLoop total scenes g).progressCalls,
        g / (total * 1000000) * 100 ≤ p) := by
  have hT6 : (0 : ℚ) < total * 1000000 := by positivity
  intro scenes
  induction scenes with
  | nil => intro g _; simp [exportLoop]
  | cons s rest ih =>
    intro g hg
    cases hb : s.audioBuffer with
    | none =>
      rw [exportLoop]
      simp only [hb]
      exact ih g hg
    | some b =>
      rw [exportLoop]
      simp only [hb]
      have hD : 0 ≤ (effBuf s b).duration := (effBuf s b).duration_nonneg
      set D := (effBuf s b).duration with hDdef
      have hg6 : (0:ℚ) ≤ D * 1000000 := by positivity
      have hg' : (0:ℚ) ≤ g + D * 1000000 := by linarith
      obtain ⟨ihc, ihb⟩ := ih (g + D * 1000000) hg'
      set frames := (⌈D * 30⌉).toNat with hframes
      have hnum : ∀ f : ℕ, f < frames →
          g ≤ g + ((f : ℚ) / (frames : ℚ) * D) * 1000000 ∧
          g + ((f : ℚ) / (frames : ℚ) * D) * 1000000 ≤ g + D * 1000000 := by
        intro f hf
        have hfq : (0:ℚ) < (frames : ℚ) := by
          exact_mod_cast Nat.pos_of_ne_zero (by omega)
        have h01 : (0:ℚ) ≤ (f : ℚ) / (frames : ℚ) := by positivity
        have h1 : (f : ℚ) / (frames : ℚ) ≤ 1 := by
          rw [div_le_one hfq]
          exact_mod_cast le_of_lt hf
        constructor
        · nlinarith
        · nlinarith
      have hvall : ∀ p ∈ sceneProgress g total D frames,
          g / (total * 1000000) * 100 ≤ p ∧
          p ≤ (g + D * 1000000) / (total * 1000000) * 100 := by
        intro p hp
        rw [sceneProgress] at hp
        obtain ⟨f, hf, rfl⟩ := List.mem_map.mp hp
        rw [List.mem_range] at hf
        obtain ⟨hlow, hhigh⟩ := hnum f hf
        constructor
        · exact mul_le_mul_of_nonneg_right
            ((div_le_div_iff_of_pos_right hT6).mpr hlow) (by norm_num)
        · exact mul_le_mul_of_nonneg_right
            ((div_le_div_iff_of_pos_right hT6).mpr hhigh) (by norm_num)
      have hchain1 : (sceneProgress g total D frames).Chain' (· ≤ ·) := by
        rw [sceneProgress]
        refine chain'_le_map_range (fun i => ?_) _
        rcases Nat.eq_zero_or_pos frames with h0 | hpos
        · rw [h0]
          simp
        · have hfq : (0:ℚ) < (frames : ℚ) := by exact_mod_cast hpos
          have hstep : ((i : ℚ)) / (frames : ℚ) ≤ ((i + 1 : ℕ) : ℚ) / (frames : ℚ) := by
            refine (div_le_div_iff_of_pos_right hfq).mpr ?_
            exact_mod_cast Nat.le_succ i
          have : ((i : ℚ) / (frames : ℚ) * D) * 1000000
              ≤ (((i + 1 : ℕ) : ℚ) / (frames : ℚ) * D) * 1000000 := by
            nlinarith
          refine mul_le_mul_of_nonneg_right
            ((div_le_div_iff_of_pos_right hT6).mpr (by linarith)) (by norm_num)
      refine ⟨?_, ?_⟩
      · refine chain'_le_append hchain1 ihc ?_
        intro x hx y hy
        calc x ≤ (g + D * 1000000) / (total * 1000000) * 100 := (hvall x hx).2
          _ ≤ y := ihb y hy
      · intro p hp
        rcases List.mem_append.mp hp with h | h
        · exact (hvall p h).1
        · calc g / (total * 1000000) * 100
              ≤ (g + D * 1000000) / (total * 1000000) * 100 :=
                mul_le_mul_of_nonneg_right
                  ((div_le_div_iff_of_pos_right hT6).mpr (by linarith)) (by norm_num)
            _ ≤ p := ihb p h

/-- When every scene's audio is already at 48 kHz the effective duration is
the original one, so as long as the remaining durations fit under the
precomputed total, every progress value stays strictly below 100. -/
lemma exportLoop_progress_lt100 (total : ℚ) :
    ∀ (scenes : List Scene) (g : ℚ),
      (∀ s ∈ scenes, ∀ b, s.audioBuffer = some b → b.sampleRate = 48000) →
      0 ≤ g →
      g + (scenes.map origDur).sum * 1000000 ≤ total * 1000000 →
      ∀ p ∈ (exportLoop total scenes g).progressCalls, p < 100 := by
  intro scenes
  induction scenes with
  | nil => intro g _ _ _ p hp; simp [exportLoop] at hp
  | cons s rest ih =>
    intro g h48 hg hrest p hp
    have hrestsum : 0 ≤ (rest.map origDur).sum := origDur_sum_nonneg rest
    cases hb : s.audioBuffer with
    | none =>
      rw [exportLoop] at hp
      simp only [hb] at hp
      refine ih g (fun t ht => h48 t (List.mem_cons_of_mem s ht)) hg ?_ p hp
      have : origDur s = 0 := by rw [origDur, hb]
      rw [List.map_cons, List.sum_cons, this, zero_add] at hrest
      exact hrest
    | some b =>
      have hbe : effBuf s b = b := effBuf_48k (h48 s (List.mem_cons_self s rest) b hb)
      have hDorig : origDur s = b.duration := by rw [origDur, hb]
      rw [exportLoop] at hp
      simp only [hb, hbe] at hp
      have hD : 0 ≤ b.duration := b.duration_nonneg
      have hrest' : (g + b.duration * 1000000)
          + (rest.map origDur).sum * 1000000 ≤ total * 1000000 := by
        rw [List.map_cons, List.sum_cons, hDorig] at hrest
        nlinarith
      rcases List.mem_append.mp hp with h | h
      · rw [sceneProgress] at h
        obtain ⟨f, hf, rfl⟩ := List.mem_map.mp h
        rw [List.mem_range] at hf
        set frames := (⌈b.duration * 30⌉).toNat with hframes
        have hpos : 0 < frames := Nat.pos_of_ne_zero (by omega)
        have hDpos : 0 < b.duration := by
          by_contra hc
          push_neg at hc
          have : b.duration = 0 := le_antisymm hc hD
          rw [hframes, this] at hpos
          norm_num at hpos
        have hfq : (0:ℚ) < (frames : ℚ) := by exact_mod_cast hpos
        have hratio : (f : ℚ) / (frames : ℚ) < 1 := by
          rw [div_lt_one hfq]
          exact_mod_cast hf
        have hnum : g + ((f : ℚ) / (frames : ℚ) * b.duration) * 1000000
            < total * 1000000 := by
          nlinarith
        have hT6 : (0:ℚ) < total * 1000000 := by
          have h0 : (0:ℚ) ≤ g + ((f : ℚ) / (frames : ℚ) * b.duration) * 1000000 := by
            have : (0:ℚ) ≤ (f : ℚ) / (frames : ℚ) := by positivity
            nlinarith
          linarith
        calc (g + ((f : ℚ) / (frames : ℚ) * b.duration) * 1000000)
              / (total * 1000000) * 100
            < 1 * 100 := by
              refine mul_lt_mul_of_pos_right ?_ (by norm_num)
              rw [div_lt_one hT6]
              exact hnum
          _ = 100 := by norm_num
      · exact ih _ (fun t ht => h48 t (List.mem_cons_of_mem s ht)) (by nlinarith) hrest' p h

/-- C5 amended: the progress-callback values of an export are monotonically
non-decreasing and non-negative; and when no scene's audio needs
resampling (all already at the encoder rate 48000), every reported value —
including the final one — is strictly BELOW 100: the callback never
reports exactly 100, and the spec's claimed clamp does not exist (with
resampling the values can exceed 100, per the counterexample). -/
theorem C5_progress (scenes : List Scene) :
    (exportVideo scenes).progressCalls.Chain' (· ≤ ·) ∧
    (∀ p ∈ (exportVideo scenes).progressCalls, 0 ≤ p) ∧
    ((∀ s ∈ scenes, ∀ b, s.audioBuffer = some b → b.sampleRate = 48000) →
      ∀ p ∈ (exportVideo scenes).progressCalls, p < 100) := by
  have htot0 : 0 ≤ totalDurationSec scenes := origDur_sum_nonneg scenes
  rcases eq_or_lt_of_le htot0 with heq | hpos
  · have hall := exportLoop_progress_total_zero scenes 0
    rw [exportVideo, ← heq]
    refine ⟨chain'_le_of_all_eq hall, fun p hp => le_of_eq (hall p hp).symm, ?_⟩
    intro _ p hp
    rw [hall p hp]
    norm_num
  · obtain ⟨hchain, hlow⟩ := exportLoop_progress_mono _ hpos scenes 0 (le_refl 0)
    refine ⟨hchain, fun p hp => ?_, ?_⟩
    · have := hlow p hp
      rw [zero_div, zero_mul] at this
      exact this
    · intro h48
      exact exportLoop_progress_lt100 _ scenes 0 h48 (le_refl 0)
        (by rw [zero_add, totalDurationSec])

/-- C5 amended, witness: one half-second scene already at 48 kHz. -/
theorem C5_progress_witness :
    (exportVideo [(⟨some ⟨48000, 24000⟩, false⟩ : Scene)]).progressCalls.Chain' (· ≤ ·) ∧
    (∀ p ∈ (exportVideo [(⟨some ⟨48000, 24000⟩, false⟩ : Scene)]).progressCalls, 0 ≤ p) ∧
    (∀ p ∈ (exportVideo [(⟨some ⟨48000, 24000⟩, false⟩ : Scene)]).progressCalls, p < 100) :=
  ⟨(C5_progress [(⟨some ⟨48000, 24000⟩, false⟩ : Scene)]).1,
   (C5_progress [(⟨some ⟨48000, 24000⟩, false⟩ : Scene)]).2.1,
   (C5_progress [(⟨some ⟨48000, 24000⟩, false⟩ : Scene)]).2.2 (by
      intro s hs b hb
      rw [List.mem_singleton] at hs
      subst hs
      injection hb with h
      rw [← h])⟩
